import Mathlib

/-!
Verification of the metadata-driven frame compositor in
`frame_auto_date_title.py` (repository FrameImagesWithDatenTitle).

The Python code is shallowly embedded: Python strings are modelled as
`List Char` (`Str`), bytes as `List Nat` (`ByteSeq`), Python `None` as
`Option.none`, machine integers as `Int` (Python integers are unbounded,
so no wrap-around is involved), and code that may raise is modelled as
`Option`/`Except`-valued functions whose `none`/`error` branch stands for
the exception path.  PIL's `draw.textlength` text-measurement callback is
modelled by a per-character advance-width function `cw : Char → Nat`
summed over the string (an additive model of the measurement; the wrap
theorems below do not depend on additivity beyond the empty string
measuring 0).
-/

/-- Python `str` values, modelled as a list of characters. -/
abbrev Str := List Char

/-- Python bytes values, modelled as a list of byte numbers. -/
abbrev ByteSeq := List Nat

/-- Whitespace test used by Python `str.split()` / `str.strip()` (the
ASCII whitespace cases, which is what the repository's data contains). -/
def isSpace (c : Char) : Bool := c.isWhitespace

/-- Python `str.strip()`: remove leading and trailing whitespace. -/
def pyStrip (s : Str) : Str :=
  ((s.dropWhile isSpace).reverse.dropWhile isSpace).reverse

/-- Python `str.lower()` (ASCII case folding, which covers the
extensions compared by the code). -/
def pyLower (s : Str) : Str := s.map Char.toLower

/-- Python `str.split()` with no separator: split on runs of whitespace,
discarding empty pieces.  Defined structurally (looking at two leading
characters) so that it evaluates by `decide`/`rfl`. -/
def pyWords : Str → List Str
  | [] => []
  | [c] => if isSpace c then [] else [[c]]
  | c :: d :: s =>
    if isSpace c then pyWords (d :: s)
    else
      if isSpace d then [c] :: pyWords (d :: s)
      else
        match pyWords (d :: s) with
        | [] => [[c]]
        | w :: ws => (c :: w) :: ws

/-- Python `" ".join(lines)`: join strings with single spaces. -/
def pyJoinSp : List Str → Str
  | [] => []
  | [w] => w
  | w :: v :: ws => w ++ ' ' :: pyJoinSp (v :: ws)

/-- Model of PIL's `draw.textlength(text, font)`: the sum of the
per-character advance widths `cw` of the font over the string. -/
def textlength (cw : Char → Nat) (s : Str) : Nat := (s.map cw).sum

/-- The character loop of `split_long_word` inside `wrap_text`
(`frame_auto_date_title.py`): greedily extend `current` with the next
character while the extension still fits `max_width`; otherwise emit
`current` and restart from that character.  The final nonempty `current`
is emitted too. -/
def slwLoop (cw : Char → Nat) (max_width : Int) : Str → Str → List Str
  | [], current => if current = [] then [] else [current]
  | ch :: rest, current =>
    let test := current ++ [ch]
    if current ≠ [] ∧ (textlength cw test : Int) > max_width then
      current :: slwLoop cw max_width rest [ch]
    else
      slwLoop cw max_width rest test

/-- `split_long_word` from `wrap_text`: a word that fits is kept whole,
otherwise it is split character-by-character by `slwLoop`. -/
def splitLongWord (cw : Char → Nat) (max_width : Int) (word : Str) : List Str :=
  if (textlength cw word : Int) ≤ max_width then [word]
  else slwLoop cw max_width word []

/-- The greedy line-packing loop of `wrap_text`: append the next word to
the current line when `line + " " + word` still fits, otherwise close the
line and start a new one from that word.  The final line is appended. -/
def packLoop (cw : Char → Nat) (max_width : Int) : List Str → Str → List Str
  | [], line => [line]
  | w :: rest, line =>
    let test := line ++ ' ' :: w
    if (textlength cw test : Int) ≤ max_width then packLoop cw max_width rest test
    else line :: packLoop cw max_width rest w

/-- `wrap_text(draw, text, font, max_width)` from
`frame_auto_date_title.py`.  `max_width ≤ 0` returns the whole text as a
single line; empty word lists return a single empty line; otherwise the
whitespace-split words are normalized by `split_long_word` and greedily
packed into lines.  The `[] => [[]]` branch of the match is unreachable
(`split_long_word` never returns an empty list on a nonempty word); it
models the Python indexing `normalized_words[0]`. -/
def wrap_text (cw : Char → Nat) (text : Str) (max_width : Int) : List Str :=
  if max_width ≤ 0 then (if text = [] then [[]] else [text])
  else if pyWords text = [] then [[]]
  else
    match (pyWords text).flatMap (splitLongWord cw max_width) with
    | [] => [[]]
    | n :: rest => packLoop cw max_width rest n

example : pyWords ("  hello   brave world ".data) =
    ["hello".data, "brave".data, "world".data] := by decide

example : wrap_text (fun _ => 1) ("ab cd ef".data) 5 =
    ["ab cd".data, "ef".data] := by decide

example : wrap_text (fun _ => 2) ("abcd e".data) 3 =
    ["a".data, "b".data, "c".data, "d".data, "e".data] := by decide

example : wrap_text (fun _ => 1) ("   ".data) 5 = [[]] := by decide

example : wrap_text (fun _ => 1) [] 0 = [[]] := by decide

/-! ### Lemmas about `pyWords`, `pyJoinSp` and the wrap loops -/

theorem pyWords_cons_space (c : Char) (s : Str) (h : isSpace c = true) :
    pyWords (c :: s) = pyWords s := by
  cases s with
  | nil => simp [pyWords, h]
  | cons d t => simp [pyWords, h]

theorem pyWords_sound (s : Str) : ∀ w ∈ pyWords s, w ≠ [] ∧ ∀ a ∈ w, isSpace a = false := by
  induction s using pyWords.induct with
  | case1 => intro w hw; simp [pyWords] at hw
  | case2 c h => intro w hw; simp [pyWords, h] at hw
  | case3 c h =>
    intro w hw
    simp [pyWords, h] at hw
    subst hw
    exact ⟨by simp, by intro a ha; simp at ha; subst ha; simpa using h⟩
  | case4 c d s h ih =>
    intro w hw
    rw [show pyWords (c :: d :: s) = pyWords (d :: s) from by simp [pyWords, h]] at hw
    exact ih w hw
  | case5 c d s hc hd ih =>
    intro w hw
    rw [show pyWords (c :: d :: s) = [c] :: pyWords (d :: s) from by
      simp [pyWords, hc, hd]] at hw
    rcases List.mem_cons.1 hw with rfl | hw
    · exact ⟨by simp, by intro a ha; simp at ha; subst ha; simpa using hc⟩
    · exact ih w hw
  | case6 c d s hc hd hm ih =>
    intro w hw
    rw [show pyWords (c :: d :: s) = [[c]] from by simp [pyWords, hc, hd, hm]] at hw
    simp at hw
    subst hw
    exact ⟨by simp, by intro a ha; simp at ha; subst ha; simpa using hc⟩
  | case7 c d s hc hd v vs hm ih =>
    intro w hw
    rw [show pyWords (c :: d :: s) = (c :: v) :: vs from by simp [pyWords, hc, hd, hm]] at hw
    rcases List.mem_cons.1 hw with rfl | hw
    · have hv := ih v (by rw [hm]; exact List.mem_cons_self v vs)
      refine ⟨by simp, ?_⟩
      intro a ha
      rcases List.mem_cons.1 ha with rfl | ha
      · simpa using hc
      · exact hv.2 a ha
    · exact ih w (by rw [hm]; exact List.mem_cons_of_mem v hw)

theorem pyWords_append_word :
    ∀ (w : Str), w ≠ [] → (∀ a ∈ w, isSpace a = false) →
      ∀ s : Str, (∀ d t, s = d :: t → isSpace d = true) →
      pyWords (w ++ s) = w :: pyWords s := by
  intro w
  induction w with
  | nil => intro h; exact absurd rfl h
  | cons a w ih =>
    intro _ hns s hs
    have ha : isSpace a = false := hns a (List.mem_cons_self a w)
    cases w with
    | nil =>
      cases s with
      | nil => simp [pyWords, ha]
      | cons d t =>
        have hd : isSpace d = true := hs d t rfl
        simp [pyWords, ha, hd]
    | cons b w' =>
      have hb : isSpace b = false := hns b (by simp)
      have ih' : pyWords ((b :: w') ++ s) = (b :: w') :: pyWords s :=
        ih (by simp) (fun x hx => hns x (List.mem_cons_of_mem a hx)) s hs
      have hstep : pyWords (a :: b :: (w' ++ s)) =
          (match pyWords (b :: (w' ++ s)) with
           | [] => [[a]]
           | v :: vs => (a :: v) :: vs) := by
        simp [pyWords, ha, hb]
      show pyWords (a :: b :: (w' ++ s)) = (a :: b :: w') :: pyWords s
      rw [hstep, show pyWords (b :: (w' ++ s)) = (b :: w') :: pyWords s from ih']

theorem pyWords_joinSp :
    ∀ (ws : List Str), (∀ w ∈ ws, w ≠ [] ∧ ∀ a ∈ w, isSpace a = false) →
      pyWords (pyJoinSp ws) = ws := by
  intro ws
  induction ws with
  | nil => intro _; rfl
  | cons w ws ih =>
    intro h
    cases ws with
    | nil =>
      have hw := h w (by simp)
      have := pyWords_append_word w hw.1 hw.2 [] (by intro d t ht; cases ht)
      simpa [pyJoinSp] using this
    | cons v vs =>
      have hw := h w (by simp)
      have hstep : pyWords (w ++ ' ' :: pyJoinSp (v :: vs)) =
          w :: pyWords (' ' :: pyJoinSp (v :: vs)) :=
        pyWords_append_word w hw.1 hw.2 _
          (by intro d t ht; cases ht; decide)
      rw [pyJoinSp, hstep, pyWords_cons_space _ _ (by decide),
        ih (fun x hx => h x (List.mem_cons_of_mem w hx))]

theorem packLoop_ne_nil (cw : Char → Nat) (W : Int) :
    ∀ (ws : List Str) (line : Str), packLoop cw W ws line ≠ [] := by
  intro ws
  induction ws with
  | nil => intro line; simp [packLoop]
  | cons w rest ih =>
    intro line
    by_cases hfit : (textlength cw (line ++ ' ' :: w) : Int) ≤ W
    · simpa [packLoop, hfit] using ih (line ++ ' ' :: w)
    · simp [packLoop, hfit]

theorem joinSp_packLoop (cw : Char → Nat) (W : Int) :
    ∀ (ws : List Str) (line : Str),
      pyJoinSp (packLoop cw W ws line) = line ++ ws.flatMap (fun w => ' ' :: w) := by
  intro ws
  induction ws with
  | nil => intro line; simp [packLoop, pyJoinSp]
  | cons w rest ih =>
    intro line
    by_cases hfit : (textlength cw (line ++ ' ' :: w) : Int) ≤ W
    · rw [show packLoop cw W (w :: rest) line = packLoop cw W rest (line ++ ' ' :: w) from by
        simp [packLoop, hfit]]
      rw [ih (line ++ ' ' :: w)]
      simp
    · rw [show packLoop cw W (w :: rest) line = line :: packLoop cw W rest w from by
        simp [packLoop, hfit]]
      obtain ⟨x, xs, hx⟩ : ∃ x xs, packLoop cw W rest w = x :: xs := by
        cases hpk : packLoop cw W rest w with
        | nil => exact absurd hpk (packLoop_ne_nil cw W rest w)
        | cons x xs => exact ⟨x, xs, rfl⟩
      rw [hx, pyJoinSp, ← hx, ih w]
      simp

theorem joinSp_eq_flat :
    ∀ (rest : List Str) (n : Str),
      pyJoinSp (n :: rest) = n ++ rest.flatMap (fun w => ' ' :: w) := by
  intro rest
  induction rest with
  | nil => intro n; simp [pyJoinSp]
  | cons v vs ih =>
    intro n
    rw [pyJoinSp, ih v]
    simp

theorem slwLoop_mem_ne_nil (cw : Char → Nat) (W : Int) :
    ∀ (rest current : Str) (p : Str), p ∈ slwLoop cw W rest current → p ≠ [] := by
  intro rest
  induction rest with
  | nil =>
    intro current p hp
    by_cases h : current = []
    · simp [slwLoop, h] at hp
    · simp [slwLoop, h] at hp
      subst hp; exact h
  | cons ch rest ih =>
    intro current p hp
    by_cases hc : current ≠ [] ∧ (textlength cw (current ++ [ch]) : Int) > W
    · rw [show slwLoop cw W (ch :: rest) current =
          current :: slwLoop cw W rest [ch] from by simp [slwLoop, hc.1, hc.2]] at hp
      rcases List.mem_cons.1 hp with rfl | hp
      · exact hc.1
      · exact ih [ch] p hp
    · rw [show slwLoop cw W (ch :: rest) current =
          slwLoop cw W rest (current ++ [ch]) from by
        simp only [slwLoop]
        rw [if_neg hc]] at hp
      exact ih (current ++ [ch]) p hp

theorem slwLoop_mem_chars (cw : Char → Nat) (W : Int) :
    ∀ (rest current : Str) (p : Str), p ∈ slwLoop cw W rest current →
      ∀ a ∈ p, a ∈ current ∨ a ∈ rest := by
  intro rest
  induction rest with
  | nil =>
    intro current p hp a ha
    by_cases h : current = []
    · simp [slwLoop, h] at hp
    · simp [slwLoop, h] at hp
      subst hp; exact Or.inl ha
  | cons ch rest ih =>
    intro current p hp a ha
    by_cases hc : current ≠ [] ∧ (textlength cw (current ++ [ch]) : Int) > W
    · rw [show slwLoop cw W (ch :: rest) current =
          current :: slwLoop cw W rest [ch] from by simp [slwLoop, hc.1, hc.2]] at hp
      rcases List.mem_cons.1 hp with rfl | hp
      · exact Or.inl ha
      · rcases ih [ch] p hp a ha with h1 | h2
        · simp at h1; subst h1; exact Or.inr (by simp)
        · exact Or.inr (List.mem_cons_of_mem ch h2)
    · rw [show slwLoop cw W (ch :: rest) current =
          slwLoop cw W rest (current ++ [ch]) from by
        simp only [slwLoop]
        rw [if_neg hc]] at hp
      rcases ih (current ++ [ch]) p hp a ha with h1 | h2
      · rcases List.mem_append.1 h1 with h1a | h1b
        · exact Or.inl h1a
        · simp at h1b; subst h1b; exact Or.inr (by simp)
      · exact Or.inr (List.mem_cons_of_mem ch h2)

theorem slwLoop_mem_fits (cw : Char → Nat) (W : Int) :
    ∀ (rest current : Str),
      ((textlength cw current : Int) ≤ W ∨ current.length ≤ 1) →
      ∀ p ∈ slwLoop cw W rest current,
        (textlength cw p : Int) ≤ W ∨ p.length = 1 := by
  intro rest
  induction rest with
  | nil =>
    intro current hinv p hp
    by_cases h : current = []
    · simp [slwLoop, h] at hp
    · simp [slwLoop, h] at hp
      rw [hp]
      rcases hinv with h1 | h2
      · exact Or.inl h1
      · have hlen : 0 < current.length := List.length_pos.2 h
        exact Or.inr (by omega)
  | cons ch rest ih =>
    intro current hinv p hp
    by_cases hc : current ≠ [] ∧ (textlength cw (current ++ [ch]) : Int) > W
    · rw [show slwLoop cw W (ch :: rest) current =
          current :: slwLoop cw W rest [ch] from by simp [slwLoop, hc.1, hc.2]] at hp
      rcases List.mem_cons.1 hp with hphead | hp
      · rw [hphead]
        rcases hinv with h1 | h2
        · exact Or.inl h1
        · have hlen : 0 < current.length := List.length_pos.2 hc.1
          exact Or.inr (by omega)
      · exact ih [ch] (Or.inr (by simp)) p hp
    · rw [show slwLoop cw W (ch :: rest) current =
          slwLoop cw W rest (current ++ [ch]) from by
        simp only [slwLoop]
        rw [if_neg hc]] at hp
      by_cases hcur : current = []
      · exact ih (current ++ [ch]) (Or.inr (by simp [hcur])) p hp
      · have hle : (textlength cw (current ++ [ch]) : Int) ≤ W := by
          rcases not_and_or.1 hc with h1 | h2
          · exact absurd hcur (by simpa using h1)
          · omega
        exact ih (current ++ [ch]) (Or.inl hle) p hp

theorem slwLoop_ne_nil (cw : Char → Nat) (W : Int) :
    ∀ (rest current : Str), (current ≠ [] ∨ rest ≠ []) → slwLoop cw W rest current ≠ [] := by
  intro rest
  induction rest with
  | nil =>
    intro current h
    rcases h with h | h
    · simp [slwLoop, h]
    · exact absurd rfl h
  | cons ch rest ih =>
    intro current _
    by_cases hc : current ≠ [] ∧ (textlength cw (current ++ [ch]) : Int) > W
    · simp [slwLoop, hc.1, hc.2]
    · rw [show slwLoop cw W (ch :: rest) current =
          slwLoop cw W rest (current ++ [ch]) from by
        simp only [slwLoop]
        rw [if_neg hc]]
      exact ih (current ++ [ch]) (Or.inl (by simp))

theorem splitLongWord_mem_fits (cw : Char → Nat) (W : Int) (word : Str) :
    ∀ p ∈ splitLongWord cw W word, (textlength cw p : Int) ≤ W ∨ p.length = 1 := by
  intro p hp
  by_cases h : (textlength cw word : Int) ≤ W
  · simp [splitLongWord, h] at hp
    rw [hp]
    exact Or.inl h
  · rw [show splitLongWord cw W word = slwLoop cw W word [] from by
      simp [splitLongWord, h]] at hp
    exact slwLoop_mem_fits cw W word [] (Or.inr (by simp)) p hp

theorem splitLongWord_ne_nil (cw : Char → Nat) (W : Int) (word : Str) (hw : word ≠ []) :
    splitLongWord cw W word ≠ [] := by
  by_cases h : (textlength cw word : Int) ≤ W
  · simp [splitLongWord, h]
  · rw [show splitLongWord cw W word = slwLoop cw W word [] from by
      simp [splitLongWord, h]]
    exact slwLoop_ne_nil cw W word [] (Or.inr hw)

theorem splitLongWord_mem_props (cw : Char → Nat) (W : Int) (word : Str)
    (hw : word ≠ []) (hns : ∀ a ∈ word, isSpace a = false) :
    ∀ p ∈ splitLongWord cw W word, p ≠ [] ∧ ∀ a ∈ p, isSpace a = false := by
  intro p hp
  by_cases h : (textlength cw word : Int) ≤ W
  · simp [splitLongWord, h] at hp
    rw [hp]
    exact ⟨hw, hns⟩
  · rw [show splitLongWord cw W word = slwLoop cw W word [] from by
      simp [splitLongWord, h]] at hp
    refine ⟨slwLoop_mem_ne_nil cw W word [] p hp, ?_⟩
    intro a ha
    rcases slwLoop_mem_chars cw W word [] p hp a ha with h1 | h2
    · simp at h1
    · exact hns a h2

theorem splitLongWord_of_fits (cw : Char → Nat) (W : Int) (p : Str)
    (h : (textlength cw p : Int) ≤ W ∨ p.length = 1) :
    splitLongWord cw W p = [p] := by
  by_cases hfit : (textlength cw p : Int) ≤ W
  · simp [splitLongWord, hfit]
  · rcases h with h1 | h2
    · exact absurd h1 hfit
    · obtain ⟨c, hc⟩ := List.length_eq_one.1 h2
      subst hc
      simp [splitLongWord, hfit, slwLoop]

theorem flatMap_splitLongWord_id (cw : Char → Nat) (W : Int) :
    ∀ (ps : List Str),
      (∀ p ∈ ps, (textlength cw p : Int) ≤ W ∨ p.length = 1) →
      ps.flatMap (splitLongWord cw W) = ps := by
  intro ps
  induction ps with
  | nil => intro _; rfl
  | cons p ps ih =>
    intro h
    rw [List.flatMap_cons, splitLongWord_of_fits cw W p (h p (by simp)),
      ih (fun q hq => h q (List.mem_cons_of_mem p hq))]
    rfl

theorem packLoop_mem_fits (cw : Char → Nat) (W : Int) :
    ∀ (ws : List Str) (line : Str),
      ((textlength cw line : Int) ≤ W ∨ line.length = 1) →
      (∀ w ∈ ws, (textlength cw w : Int) ≤ W ∨ w.length = 1) →
      ∀ ℓ ∈ packLoop cw W ws line, (textlength cw ℓ : Int) ≤ W ∨ ℓ.length = 1 := by
  intro ws
  induction ws with
  | nil =>
    intro line hline _ ℓ hℓ
    simp [packLoop] at hℓ
    rw [hℓ]
    exact hline
  | cons w rest ih =>
    intro line hline hws ℓ hℓ
    by_cases hfit : (textlength cw (line ++ ' ' :: w) : Int) ≤ W
    · rw [show packLoop cw W (w :: rest) line = packLoop cw W rest (line ++ ' ' :: w) from by
        simp [packLoop, hfit]] at hℓ
      exact ih (line ++ ' ' :: w) (Or.inl hfit)
        (fun q hq => hws q (List.mem_cons_of_mem w hq)) ℓ hℓ
    · rw [show packLoop cw W (w :: rest) line = line :: packLoop cw W rest w from by
        simp [packLoop, hfit]] at hℓ
      rcases List.mem_cons.1 hℓ with hhead | hℓ
      · rw [hhead]; exact hline
      · exact ih w (hws w (by simp))
          (fun q hq => hws q (List.mem_cons_of_mem w hq)) ℓ hℓ

/-- C1: for every text, measurement function and width `W > 0`, every line
returned by `wrap_text` measures at most `W`, except that a line may be a
single character (which is how an over-wide character is returned). -/
theorem wrap_line_fits_or_single_char (cw : Char → Nat) (text : Str) (W : Int)
    (hW : 0 < W) :
    ∀ ℓ ∈ wrap_text cw text W, (textlength cw ℓ : Int) ≤ W ∨ ℓ.length = 1 := by
  intro ℓ hℓ
  have hWn : ¬ W ≤ 0 := by omega
  rw [wrap_text, if_neg hWn] at hℓ
  by_cases hpw : pyWords text = []
  · rw [if_pos hpw] at hℓ
    simp at hℓ
    rw [hℓ]
    refine Or.inl ?_
    simp [textlength]
    omega
  · rw [if_neg hpw] at hℓ
    cases hnw : (pyWords text).flatMap (splitLongWord cw W) with
    | nil =>
      rw [hnw] at hℓ
      simp at hℓ
      rw [hℓ]
      refine Or.inl ?_
      simp [textlength]
      omega
    | cons n rest =>
      rw [hnw] at hℓ
      have hmem : ∀ p ∈ n :: rest, (textlength cw p : Int) ≤ W ∨ p.length = 1 := by
        intro p hp
        rw [← hnw] at hp
        obtain ⟨w, hwmem, hpw'⟩ := List.mem_flatMap.1 hp
        exact splitLongWord_mem_fits cw W w p hpw'
      exact packLoop_mem_fits cw W rest n (hmem n (by simp))
        (fun q hq => hmem q (List.mem_cons_of_mem n hq)) ℓ hℓ

/-- Witness for C1 at a concrete input: width 3, every character 2 wide,
text `"abcd ef"`; the line `"a"` belongs to the wrap and satisfies the
bound. -/
theorem wrap_line_fits_or_single_char_witness :
    (textlength (fun _ => 2) ("a".data) : Int) ≤ 3 ∨ ("a".data).length = 1 :=
  wrap_line_fits_or_single_char (fun _ => 2) ("abcd ef".data) 3 (by decide)
    ("a".data) (by decide)

/-- C5: rewrapping the space-joined concatenation of the lines of
`wrap_text` with the same measurement and width reproduces exactly the
same line sequence (idempotence under join-with-spaces). -/
theorem wrap_text_idem (cw : Char → Nat) (text : Str) (W : Int) :
    wrap_text cw (pyJoinSp (wrap_text cw text W)) W = wrap_text cw text W := by
  by_cases hW : W ≤ 0
  · by_cases ht : text = []
    · subst ht
      simp [wrap_text, hW, pyJoinSp]
    · rw [show wrap_text cw text W = [text] from by simp [wrap_text, hW, ht]]
      rw [show pyJoinSp [text] = text from rfl]
      simp [wrap_text, hW, ht]
  · by_cases hpw : pyWords text = []
    · rw [show wrap_text cw text W = [[]] from by simp [wrap_text, hW, hpw]]
      rw [show pyJoinSp [[]] = [] from rfl]
      simp [wrap_text, hW, pyWords]
    · have hwprops := pyWords_sound text
      obtain ⟨w₀, ws₀, hw0⟩ : ∃ w₀ ws₀, pyWords text = w₀ :: ws₀ := by
        cases h : pyWords text with
        | nil => exact absurd h hpw
        | cons a b => exact ⟨a, b, rfl⟩
      have hnwne : (pyWords text).flatMap (splitLongWord cw W) ≠ [] := by
        rw [hw0, List.flatMap_cons]
        have h1 : splitLongWord cw W w₀ ≠ [] :=
          splitLongWord_ne_nil cw W w₀ (hwprops w₀ (by rw [hw0]; simp)).1
        intro hcon
        exact h1 (List.append_eq_nil.1 hcon).1
      obtain ⟨n, rest, hnw⟩ :
          ∃ n rest, (pyWords text).flatMap (splitLongWord cw W) = n :: rest := by
        cases h : (pyWords text).flatMap (splitLongWord cw W) with
        | nil => exact absurd h hnwne
        | cons a b => exact ⟨a, b, rfl⟩
      have hres : wrap_text cw text W = packLoop cw W rest n := by
        rw [wrap_text, if_neg hW, if_neg hpw, hnw]
      have hpieces : ∀ p ∈ n :: rest, p ≠ [] ∧ ∀ a ∈ p, isSpace a = false := by
        intro p hp
        rw [← hnw] at hp
        obtain ⟨w, hwmem, hpw'⟩ := List.mem_flatMap.1 hp
        exact splitLongWord_mem_props cw W w (hwprops w hwmem).1 (hwprops w hwmem).2 p hpw'
      have hfits : ∀ p ∈ n :: rest, (textlength cw p : Int) ≤ W ∨ p.length = 1 := by
        intro p hp
        rw [← hnw] at hp
        obtain ⟨w, hwmem, hpw'⟩ := List.mem_flatMap.1 hp
        exact splitLongWord_mem_fits cw W w p hpw'
      have hjoin : pyJoinSp (packLoop cw W rest n) = pyJoinSp (n :: rest) := by
        rw [joinSp_packLoop cw W rest n, joinSp_eq_flat rest n]
      have hpw2 : pyWords (pyJoinSp (packLoop cw W rest n)) = n :: rest := by
        rw [hjoin]
        exact pyWords_joinSp (n :: rest) hpieces
      rw [hres, wrap_text, if_neg hW, hpw2,
        if_neg (by simp : ¬ (n :: rest : List Str) = []),
        flatMap_splitLongWord_id cw W (n :: rest) hfits]

/-! ### Canvas geometry of `add_frame_date_title` -/

/-- The `line_height(draw, font)` helper: the height `bbox[3] - bbox[1]`
of the two-character probe string `"Ag"`, floored at 1.  The measured
bounding-box height is supplied as `boxH`. -/
def line_height (boxH : Int) : Int := max 1 boxH

/-- Python `int(x * 0.35)` as it appears in `gap = max(4, int(font_size_title
* 0.35))`: truncation toward zero of the product, modelled in exact rational
arithmetic as `tdiv (x * 35) 100`.  Python evaluates the product in binary
floating point; the float result truncates to the same integer as the exact
product for every `0 ≤ x < 180` (and for all realistic font sizes; the
first deviation is at `x = 180`, where the double product is
`62.99999999999999`). -/
def pyInt35 (x : Int) : Int := Int.tdiv (x * 35) 100

/-- Python `int(x * 0.18)` from `top_offset = max(0, int(bottom_extra_px *
0.18))`, modelled like `pyInt35`; for `0.18` the float product truncates to
the exact value for every `|x| ≤ 200000`. -/
def pyInt18 (x : Int) : Int := Int.tdiv (x * 18) 100

/-- The geometry computed by `add_frame_date_title`
(`frame_auto_date_title.py`): all the arithmetic between the
`date_text.strip()` line and the construction of the `(new_w, new_h)` canvas.
`w`/`h` are the size of the orientation-normalized source image,
`dateBoxH`/`titleBoxH` the probe bounding-box heights measured for the two
picked fonts, and `cwTitle` the advance-width measurement of the title
font (used by `wrap_text`).  Drawing is side-effect free and does not
change the geometry, so it is not modelled here. -/
structure FrameGeom where
  gap : Int
  top_offset : Int
  text_max_w : Int
  title_lines : List Str
  content_h : Int
  actual_bottom_extra : Int
  new_w : Int
  new_h : Int

def add_frame_geometry (cwTitle : Char → Nat) (w h : Int)
    (date_text title : Str)
    (border_px bottom_extra_px pad_px font_size_title : Int)
    (dateBoxH titleBoxH : Int) : FrameGeom :=
  let date_text := pyStrip date_text
  let title := pyStrip title
  let new_w := w + border_px * 2
  let left := border_px + pad_px
  let right := border_px + w - pad_px
  let text_max_w := right - left
  let gap := max 4 (pyInt35 font_size_title)
  let top_offset := max 0 (pyInt18 bottom_extra_px)
  let date_h := line_height dateBoxH
  let title_h := line_height titleBoxH
  let title_lines := if title ≠ [] then wrap_text cwTitle title text_max_w else []
  let title_block_h := (title_lines.length : Int) * title_h +
    max 0 ((title_lines.length : Int) - 1) * gap
  let content_h := top_offset +
    (if date_text ≠ [] then date_h + (if title_lines ≠ [] then gap else 0) else 0) +
    title_block_h + max 0 (top_offset / 2)
  let actual_bottom_extra := max bottom_extra_px content_h
  let new_h := h + border_px * 2 + actual_bottom_extra
  ⟨gap, top_offset, text_max_w, title_lines, content_h, actual_bottom_extra, new_w, new_h⟩

/-- C2: for every source size and layout parameters, the canvas geometry
satisfies `actual_bottom_extra = max(bottom_extra_px, content_height)` and
`new_height = h + 2*border_px + actual_bottom_extra`; consequently
`actual_bottom_extra ≥ bottom_extra_px` always, with equality exactly when
the measured `content_height` fits within `bottom_extra_px`. -/
theorem frame_geometry_bottom_band (cwTitle : Char → Nat) (w h : Int)
    (date_text title : Str)
    (border_px bottom_extra_px pad_px font_size_title : Int)
    (dateBoxH titleBoxH : Int) :
    (add_frame_geometry cwTitle w h date_text title border_px bottom_extra_px
        pad_px font_size_title dateBoxH titleBoxH).actual_bottom_extra =
      max bottom_extra_px
        (add_frame_geometry cwTitle w h date_text title border_px bottom_extra_px
          pad_px font_size_title dateBoxH titleBoxH).content_h ∧
    (add_frame_geometry cwTitle w h date_text title border_px bottom_extra_px
        pad_px font_size_title dateBoxH titleBoxH).new_h =
      h + border_px * 2 +
        (add_frame_geometry cwTitle w h date_text title border_px bottom_extra_px
          pad_px font_size_title dateBoxH titleBoxH).actual_bottom_extra ∧
    bottom_extra_px ≤
      (add_frame_geometry cwTitle w h date_text title border_px bottom_extra_px
        pad_px font_size_title dateBoxH titleBoxH).actual_bottom_extra ∧
    ((add_frame_geometry cwTitle w h date_text title border_px bottom_extra_px
        pad_px font_size_title dateBoxH titleBoxH).actual_bottom_extra =
        bottom_extra_px ↔
      (add_frame_geometry cwTitle w h date_text title border_px bottom_extra_px
        pad_px font_size_title dateBoxH titleBoxH).content_h ≤ bottom_extra_px) := by
  refine ⟨rfl, rfl, le_max_left _ _, ?_⟩
  exact max_eq_left_iff

theorem pyInt35_eq_floor (x : Int) (hx : 0 ≤ x) :
    pyInt35 x = ⌊(x * 35 : ℚ) / 100⌋ := by
  rw [pyInt35, Int.tdiv_eq_ediv (by positivity) (by norm_num)]
  rw [show ((x * 35 : ℚ) : ℚ) = ((x * 35 : ℤ) : ℚ) by push_cast; ring]
  rw [show (100 : ℚ) = ((100 : ℕ) : ℚ) by norm_num]
  rw [Rat.floor_intCast_div_natCast]
  norm_num

theorem pyInt18_eq_floor (x : Int) (hx : 0 ≤ x) :
    pyInt18 x = ⌊(x * 18 : ℚ) / 100⌋ := by
  rw [pyInt18, Int.tdiv_eq_ediv (by positivity) (by norm_num)]
  rw [show ((x * 18 : ℚ) : ℚ) = ((x * 18 : ℤ) : ℚ) by push_cast; ring]
  rw [show (100 : ℚ) = ((100 : ℕ) : ℚ) by norm_num]
  rw [Rat.floor_intCast_div_natCast]
  norm_num

/-- C3, counterexample: the code truncates (`int(...)`), it does not round
to the nearest integer.  At `title_font_size = 13` the code's gap is
`max(4, int(4.55)) = 4` while the claimed `max(4, round(13*0.35))` is `5`;
at `bottom_extra_px = 31` the code's top offset is `max(0, int(5.58)) = 5`
while the claimed `max(0, round(31*0.18))` is `6`.  (At both inputs the
binary floating-point product truncates to the same integer as the exact
product, so the float idealization in `pyInt35`/`pyInt18` is immaterial
here.) -/
theorem frame_gap_top_offset_not_round :
    (add_frame_geometry (fun _ => 1) 100 100 [] [] 0 31 0 13 10 10).gap = 4 ∧
    max 4 (round ((13 * 35 : ℚ) / 100)) = 5 ∧
    (add_frame_geometry (fun _ => 1) 100 100 [] [] 0 31 0 13 10 10).top_offset = 5 ∧
    max 0 (round ((31 * 18 : ℚ) / 100)) = 6 ∧
    (add_frame_geometry (fun _ => 1) 100 100 [] [] 0 31 0 13 10 10).gap ≠
      max 4 (round ((13 * 35 : ℚ) / 100)) := by
  refine ⟨rfl, by norm_num [round_eq], rfl, by norm_num [round_eq], ?_⟩
  rw [show (add_frame_geometry (fun _ => 1) 100 100 [] [] 0 31 0 13 10 10).gap = 4
    from rfl]
  rw [show max 4 (round ((13 * 35 : ℚ) / 100)) = 5 from by norm_num [round_eq]]
  decide

/-- C3 (amended): for nonnegative `title_font_size` and `bottom_extra_px`,
the inter-line gap equals `max(4, ⌊title_font_size * 0.35⌋)` and the top
offset within the bottom band equals `max(0, ⌊bottom_extra_px * 0.18⌋)` —
Python's `int()` truncates the product toward zero instead of rounding to
the nearest integer (for nonnegative inputs truncation is the floor). -/
theorem frame_gap_top_offset_trunc (cwTitle : Char → Nat) (w h : Int)
    (date_text title : Str)
    (border_px bottom_extra_px pad_px font_size_title : Int)
    (dateBoxH titleBoxH : Int)
    (hs : 0 ≤ font_size_title) (hb : 0 ≤ bottom_extra_px) :
    (add_frame_geometry cwTitle w h date_text title border_px bottom_extra_px
        pad_px font_size_title dateBoxH titleBoxH).gap =
      max 4 ⌊(font_size_title * 35 : ℚ) / 100⌋ ∧
    (add_frame_geometry cwTitle w h date_text title border_px bottom_extra_px
        pad_px font_size_title dateBoxH titleBoxH).top_offset =
      max 0 ⌊(bottom_extra_px * 18 : ℚ) / 100⌋ := by
  constructor
  · rw [show (add_frame_geometry cwTitle w h date_text title border_px bottom_extra_px
        pad_px font_size_title dateBoxH titleBoxH).gap =
      max 4 (pyInt35 font_size_title) from rfl]
    rw [pyInt35_eq_floor font_size_title hs]
  · rw [show (add_frame_geometry cwTitle w h date_text title border_px bottom_extra_px
        pad_px font_size_title dateBoxH titleBoxH).top_offset =
      max 0 (pyInt18 bottom_extra_px) from rfl]
    rw [pyInt18_eq_floor bottom_extra_px hb]

/-- Witness for the amended C3 at title font size 80 and bottom extra 240
(the configuration defaults). -/
theorem frame_gap_top_offset_trunc_witness :
    (add_frame_geometry (fun _ => 1) 100 100 [] [] 0 240 0 80 10 10).gap =
      max 4 ⌊(80 * 35 : ℚ) / 100⌋ ∧
    (add_frame_geometry (fun _ => 1) 100 100 [] [] 0 240 0 80 10 10).top_offset =
      max 0 ⌊(240 * 18 : ℚ) / 100⌋ :=
  frame_gap_top_offset_trunc (fun _ => 1) 100 100 [] [] 0 240 0 80 10 10
    (by decide) (by decide)

/-! ### `save_with_quality_preserved` -/

/-- `pathlib.PurePath.suffix`: the substring of the file name from its last
dot, provided that dot is neither the first nor the last character;
otherwise the empty string. -/
def lastDotIdx (name : Str) : Option Nat :=
  match (name.reverse.findIdx? (fun c => c = '.')) with
  | some j => some (name.length - 1 - j)
  | none => none

def pySuffix (name : Str) : Str :=
  match lastDotIdx name with
  | some i => if 0 < i ∧ i < name.length - 1 then name.drop i else []
  | none => []

/-- `pathlib.PurePath.stem`: the file name with `pySuffix` removed. -/
def pyStem (name : Str) : Str :=
  match lastDotIdx name with
  | some i => if 0 < i ∧ i < name.length - 1 then name.take i else name
  | none => name

/-- `path.with_suffix(newSuf).name`: the stem with the new suffix. -/
def pyWithSuffix (name newSuf : Str) : Str := pyStem name ++ newSuf

example : pySuffix ("a.b.JPG".data) = (".JPG".data) := by decide
example : pySuffix ("noext".data) = [] := by decide
example : pySuffix (".hidden".data) = [] := by decide
example : pySuffix ("a.".data) = [] := by decide
example : pyWithSuffix ("photo.heic".data) (".jpg".data) = ("photo.jpg".data) := by decide
example : pyWithSuffix ("a.".data) (".jpg".data) = ("a..jpg".data) := by decide

/-- Python truthiness of an optional bytes value (`if icc:` / `if exif:`):
true only for a present, nonempty value. -/
def pyTruthyBytes : Option ByteSeq → Bool
  | none => false
  | some b => decide (b ≠ [])

/-- The output image format passed to `framed.save(...)`. -/
inductive ImgFormat
  | JPEG
  | TIFF
  | PNG
deriving DecidableEq, Repr

/-- The keyword arguments of the `framed.save(out_path, **save_kwargs)`
call: `none` means the keyword is not passed. -/
structure SaveKwargs where
  format : ImgFormat
  quality : Option Int
  subsampling : Option Int
  optimize : Option Bool
  icc_profile : Option ByteSeq
  exif : Option ByteSeq
  compression : Option Str
  compress_level : Option Int
deriving DecidableEq, Repr

/-- The observable effect of `save_with_quality_preserved`: the output
file name (inside `out_dir`) and the encoder arguments. -/
structure SaveCall where
  out_name : Str
  kwargs : SaveKwargs
deriving DecidableEq, Repr

/-- `save_with_quality_preserved(framed, src_image, src_path, out_dir)`
from `frame_auto_date_title.py`, as a function of the source file name and
of `src_image.info.get("icc_profile")` / `src_image.info.get("exif")`.
The four branches mirror the source: recognized JPEG family, TIFF family,
PNG, and the fallback final `framed.save(..., format="JPEG", ...)` which
passes no `icc_profile` and no `exif` keyword. -/
def save_with_quality_preserved (src_name : Str) (icc exif : Option ByteSeq) :
    SaveCall :=
  let suffix := pyLower (pySuffix src_name)
  if suffix = (".jpg".data) ∨ suffix = (".jpeg".data) then
    ⟨pyWithSuffix src_name (".jpg".data),
     ⟨ImgFormat.JPEG, some 100, some 0, some false,
      (if pyTruthyBytes icc then icc else none),
      (if pyTruthyBytes exif then exif else none),
      none, none⟩⟩
  else if suffix = (".tif".data) ∨ suffix = (".tiff".data) then
    ⟨pyWithSuffix src_name (".tif".data),
     ⟨ImgFormat.TIFF, none, none, none,
      (if pyTruthyBytes icc then icc else none), none,
      some ("tiff_lzw".data), none⟩⟩
  else if suffix = (".png".data) then
    ⟨pyWithSuffix src_name (".png".data),
     ⟨ImgFormat.PNG, none, none, none,
      (if pyTruthyBytes icc then icc else none), none,
      none, some 1⟩⟩
  else
    ⟨pyWithSuffix src_name (".jpg".data),
     ⟨ImgFormat.JPEG, some 100, some 0, some false, none, none, none, none⟩⟩

/-- C4, counterexample: a source `photo.heic` (unrecognized extension)
with a present color profile and EXIF block is written as `.jpg`, but the
fallback save call passes neither `icc_profile` nor `exif`: the metadata
is dropped, contradicting the claimed verbatim carry-forward for the JPEG
family fallback. -/
theorem save_fallback_drops_metadata :
    (save_with_quality_preserved ("photo.heic".data) (some [1]) (some [2])).out_name =
      ("photo.jpg".data) ∧
    (save_with_quality_preserved ("photo.heic".data) (some [1]) (some [2])).kwargs.icc_profile =
      none ∧
    (save_with_quality_preserved ("photo.heic".data) (some [1]) (some [2])).kwargs.exif =
      none ∧
    pyTruthyBytes (some [1]) = true ∧ pyTruthyBytes (some [2]) = true ∧
    (save_with_quality_preserved ("photo.jpg".data) (some [1]) (some [2])).kwargs.icc_profile =
      some [1] := by
  decide

/-- C4 (amended): for every source whose lowercased extension is not one
of the recognized families, the output is written with extension `.jpg` as
a JPEG at quality 100 with subsampling 0 and no optimize pass, but the
source's color profile and EXIF block are NOT carried forward (the
fallback save call omits both keywords; they are carried only for sources
already in the `.jpg`/`.jpeg` family). -/
theorem save_fallback_is_bare_jpeg (src_name : Str) (icc exif : Option ByteSeq)
    (h1 : ¬ (pyLower (pySuffix src_name) = (".jpg".data) ∨
             pyLower (pySuffix src_name) = (".jpeg".data)))
    (h2 : ¬ (pyLower (pySuffix src_name) = (".tif".data) ∨
             pyLower (pySuffix src_name) = (".tiff".data)))
    (h3 : ¬ pyLower (pySuffix src_name) = (".png".data)) :
    save_with_quality_preserved src_name icc exif =
      ⟨pyWithSuffix src_name (".jpg".data),
       ⟨ImgFormat.JPEG, some 100, some 0, some false, none, none, none, none⟩⟩ := by
  rw [save_with_quality_preserved]
  rw [if_neg h1, if_neg h2, if_neg h3]

/-- Witness for the amended C4 at the concrete unrecognized source
`photo.heic` with metadata present. -/
theorem save_fallback_is_bare_jpeg_witness :
    save_with_quality_preserved ("photo.heic".data) (some [1]) (some [2]) =
      ⟨pyWithSuffix ("photo.heic".data) (".jpg".data),
       ⟨ImgFormat.JPEG, some 100, some 0, some false, none, none, none, none⟩⟩ :=
  save_fallback_is_bare_jpeg ("photo.heic".data) (some [1]) (some [2])
    (by decide) (by decide) (by decide)

/-! ### `read_exif_date` -/

/-- Numeric value of a digit character. -/
def dval (c : Char) : Nat := c.toNat - 48

/-- One two-or-one digit numeric field of `datetime.strptime`'s regex.
The two-digit alternative (subject to `okTwo` of its value) is tried
first, then the single-digit alternative (subject to `okOne`); this is
equivalent to the regex alternations such as `1[0-2]|0[1-9]|[1-9]`,
because after a two-digit match the following format character is always
a non-digit, so backtracking into the one-digit alternative always fails
anyway. -/
def parseNum2 (okTwo okOne : Nat → Bool) : Str → Option (Nat × Str)
  | a :: b :: rest =>
    if a.isDigit ∧ b.isDigit ∧ okTwo (10 * dval a + dval b) then
      some (10 * dval a + dval b, rest)
    else if a.isDigit ∧ okOne (dval a) then some (dval a, b :: rest)
    else none
  | [a] => if a.isDigit ∧ okOne (dval a) then some (dval a, []) else none
  | [] => none

/-- The exactly-four-digit `%Y` field. -/
def parseYear4 : Str → Option (Nat × Str)
  | a :: b :: c :: d :: rest =>
    if a.isDigit ∧ b.isDigit ∧ c.isDigit ∧ d.isDigit then
      some (1000 * dval a + 100 * dval b + 10 * dval c + dval d, rest)
    else none
  | _ => none

/-- A literal character of the format string. -/
def parseLitChar (c : Char) : Str → Option Str
  | x :: rest => if x = c then some rest else none
  | [] => none

/-- A literal whitespace in the format string matches one or more
whitespace characters (`_strptime` rewrites whitespace to the one-or-more
whitespace pattern). -/
def parseWs : Str → Option Str
  | x :: rest => if isSpace x then some (rest.dropWhile isSpace) else none
  | [] => none

/-- Leap-year rule of the Gregorian calendar (`datetime`). -/
def isLeap (y : Nat) : Bool := y % 4 = 0 ∧ (y % 100 ≠ 0 ∨ y % 400 = 0)

/-- Days in a month per `datetime`; the `0` default is unreachable because
the month field always parses to 1..12. -/
def daysInMonth (y m : Nat) : Nat :=
  if m = 2 then (if isLeap y then 29 else 28)
  else if m = 4 ∨ m = 6 ∨ m = 9 ∨ m = 11 then 30
  else if 1 ≤ m ∧ m ≤ 12 then 31
  else 0

structure DateTime6 where
  year : Nat
  month : Nat
  day : Nat
  hour : Nat
  minute : Nat
  second : Nat
deriving DecidableEq, Repr

/-- `datetime.strptime(s, "%Y:%m:%d %H:%M:%S")`, `none` for the
`ValueError` path.  The numeric-field patterns are the ones `_strptime`
compiles (`%Y` four digits; `%m` in 1..12; `%d` in 1..31; `%H` in 0..23;
`%M` in 0..59; `%S` in 0..61), the whole string must be consumed, and the
`datetime` constructor then rejects year 0, days beyond the month length
and seconds above 59. -/
def parseTs (s : Str) : Option DateTime6 :=
  match parseYear4 s with
  | none => none
  | some (y, r1) =>
  match parseLitChar ':' r1 with
  | none => none
  | some r2 =>
  match parseNum2 (fun v => 1 ≤ v ∧ v ≤ 12) (fun v => 1 ≤ v) r2 with
  | none => none
  | some (mo, r3) =>
  match parseLitChar ':' r3 with
  | none => none
  | some r4 =>
  match parseNum2 (fun v => 1 ≤ v ∧ v ≤ 31) (fun v => 1 ≤ v) r4 with
  | none => none
  | some (d, r5) =>
  match parseWs r5 with
  | none => none
  | some r6 =>
  match parseNum2 (fun v => v ≤ 23) (fun _ => true) r6 with
  | none => none
  | some (hh, r7) =>
  match parseLitChar ':' r7 with
  | none => none
  | some r8 =>
  match parseNum2 (fun v => v ≤ 59) (fun _ => true) r8 with
  | none => none
  | some (mi, r9) =>
  match parseLitChar ':' r9 with
  | none => none
  | some r10 =>
  match parseNum2 (fun v => v ≤ 61) (fun _ => true) r10 with
  | none => none
  | some (ss, r11) =>
  if r11 = [] then
    if 1 ≤ y ∧ d ≤ daysInMonth y mo ∧ ss ≤ 59 then
      some ⟨y, mo, d, hh, mi, ss⟩
    else none
  else none

def digitChar (n : Nat) : Char := Char.ofNat (48 + n)

def pad2 (n : Nat) : Str := [digitChar (n / 10 % 10), digitChar (n % 10)]

def pad4 (n : Nat) : Str :=
  [digitChar (n / 1000 % 10), digitChar (n / 100 % 10),
   digitChar (n / 10 % 10), digitChar (n % 10)]

/-- `d.strftime("%Y-%m-%d")` for the parsed timestamp (years here always
have four digits since `%Y` consumed exactly four). -/
def fmtDate (t : DateTime6) : Str :=
  pad4 t.year ++ '-' :: pad2 t.month ++ '-' :: pad2 t.day

/-- Python falsiness of an optional string (`if not dt:`). -/
def pyFalsyStr : Option Str → Bool
  | none => true
  | some s => decide (s = [])

/-- The EXIF dictionary fields consumed by `read_exif_date`:
`exif["Exif"][DateTimeOriginal]` and `exif["0th"][DateTime]`, with byte
values modelled by their decoded text (`dt.decode("utf-8", "ignore")`). -/
structure ExifDict where
  dateTimeOriginal : Option Str
  dateTime : Option Str
deriving DecidableEq, Repr

/-- `read_exif_date(path)` from `frame_auto_date_title.py`, as a function
of the result of `piexif.load` (`none` when loading raises; the
surrounding `try/except` turns every exception into the `None` return).
The original-capture field is consulted first, the generic `DateTime`
field only when the former is missing or falsy; a missing/falsy final
value or a failed parse returns `none`. -/
def read_exif_date (load : Option ExifDict) : Option Str :=
  match load with
  | none => none
  | some exif =>
    let dt0 := exif.dateTimeOriginal
    let dt1 := if pyFalsyStr dt0 then exif.dateTime else dt0
    if pyFalsyStr dt1 then none
    else
      match dt1 with
      | none => none
      | some s => (parseTs (pyStrip s)).map fmtDate

example : parseTs ("2021:07:04 10:15:00".data) =
    some ⟨2021, 7, 4, 10, 15, 0⟩ := by decide
example : read_exif_date (some ⟨some ("2021:07:04 10:15:00".data), none⟩) =
    some ("2021-07-04".data) := by decide
example : read_exif_date (some ⟨some ("2021:7:4 9:5:3".data), none⟩) =
    some ("2021-07-04".data) := by decide
example : read_exif_date (some ⟨some ("2021:13:04 10:15:00".data), none⟩) = none := by
  decide
example : read_exif_date (some ⟨some ("2021:02:29 10:15:00".data), none⟩) = none := by
  decide
example : read_exif_date (some ⟨some ("2020:02:29 10:15:00".data), none⟩) =
    some ("2020-02-29".data) := by decide
example : read_exif_date (some ⟨none, some ("1999:12:31 23:59:59".data)⟩) =
    some ("1999-12-31".data) := by decide
example : read_exif_date (some ⟨some [], some ("1999:12:31 23:59:59".data)⟩) =
    some ("1999-12-31".data) := by decide
example : read_exif_date (some ⟨some ("garbage".data), none⟩) = none := by decide

/-- C6: `read_exif_date` never raises (it is a total function into
`Option`): a load failure gives the absent marker; when both timestamp
fields are missing or empty it gives the absent marker; when the
original-capture field holds text, the result is exactly the
parse-then-reformat of that text (the generic field is ignored), and only
when the original-capture field is missing or empty is the generic
timestamp field parsed instead; the spec's concrete example
`2021:07:04 10:15:00` yields `2021-07-04` whatever the fallback field
holds. -/
theorem read_exif_date_spec :
    (read_exif_date none = none) ∧
    (∀ e : ExifDict, pyFalsyStr e.dateTimeOriginal = true →
        pyFalsyStr e.dateTime = true → read_exif_date (some e) = none) ∧
    (∀ (e : ExifDict) (s : Str), e.dateTimeOriginal = some s → s ≠ [] →
        read_exif_date (some e) = (parseTs (pyStrip s)).map fmtDate) ∧
    (∀ (e : ExifDict) (s : Str), pyFalsyStr e.dateTimeOriginal = true →
        e.dateTime = some s → s ≠ [] →
        read_exif_date (some e) = (parseTs (pyStrip s)).map fmtDate) ∧
    (∀ t : Option Str,
        read_exif_date (some ⟨some ("2021:07:04 10:15:00".data), t⟩) =
          some ("2021-07-04".data)) := by
  refine ⟨rfl, ?_, ?_, ?_, ?_⟩
  · intro e h1 h2
    simp [read_exif_date, h1, h2]
  · intro e s hs hne
    have hfal : pyFalsyStr e.dateTimeOriginal = false := by
      rw [hs]
      simpa [pyFalsyStr] using hne
    simp [read_exif_date, hfal, hs, pyFalsyStr, hne]
  · intro e s h1 hs hne
    have hfal : pyFalsyStr (some s) = false := by
      simpa [pyFalsyStr] using hne
    simp only [read_exif_date, h1, if_true, hs, hfal]
    simp
  · intro t
    rfl

/-- Witness for C6: the spec's example timestamp reformats to
`2021-07-04`, and a file with neither timestamp field yields the absent
marker. -/
theorem read_exif_date_spec_witness :
    read_exif_date (some ⟨some ("2021:07:04 10:15:00".data), none⟩) =
      some ("2021-07-04".data) ∧
    read_exif_date (some ⟨none, none⟩) = none :=
  ⟨read_exif_date_spec.2.2.2.2 none,
   read_exif_date_spec.2.1 ⟨none, none⟩ rfl rfl⟩

/-! ### `read_title` -/

/-- One `t = read_xmp_title_from_bytes(data); if t: ...` step: the
extracted title when it is truthy (present and nonempty), else `none`.
The XMP extraction itself (`_XMP_TITLE_RE` search plus entity decoding
and whitespace collapsing) is the supplied `extract` function; the claims
about `read_title` concern only its priority and error behavior, which
hold for every extraction function. -/
def truthyTitle (extract : ByteSeq → Option Str) (data : ByteSeq) : Option Str :=
  match extract data with
  | some t => if t ≠ [] then some t else none
  | none => none

/-- `read_title(path)` from `frame_auto_date_title.py`, as a function of
the filesystem observations the code makes: whether the sidecar
`path.with_suffix(".xmp")` exists, the result of reading its bytes
(`none` = the read raised, swallowed by the first `try/except`), and the
result of reading the image file's own bytes (`none` = the read raised,
swallowed by the second `try/except`).  The sidecar is consulted first
and its truthy title returned; any failure or falsy title falls through
to the embedded-bytes attempt; otherwise `None`. -/
def read_title (extract : ByteSeq → Option Str)
    (sidecarExists : Bool) (sidecarBytes fileBytes : Option ByteSeq) : Option Str :=
  let fromSidecar : Option Str :=
    if sidecarExists then
      match sidecarBytes with
      | none => none
      | some data => truthyTitle extract data
    else none
  match fromSidecar with
  | some t => some t
  | none =>
    match fileBytes with
    | none => none
    | some data => truthyTitle extract data

theorem truthyTitle_some_ne_nil (extract : ByteSeq → Option Str)
    (data : ByteSeq) (u : Str) (hu : truthyTitle extract data = some u) :
    u ≠ [] := by
  cases hx : extract data with
  | none => simp [truthyTitle, hx] at hu
  | some v =>
    simp only [truthyTitle, hx] at hu
    by_cases hv : v ≠ []
    · rw [if_pos hv] at hu
      cases hu
      exact hv
    · rw [if_neg hv] at hu
      cases hu

theorem read_title_some_source (extract : ByteSeq → Option Str)
    (se : Bool) (sb fb : Option ByteSeq) (t : Str)
    (h : read_title extract se sb fb = some t) :
    (∃ data, se = true ∧ sb = some data ∧ truthyTitle extract data = some t) ∨
    (∃ data, fb = some data ∧ truthyTitle extract data = some t) := by
  cases se with
  | false =>
    cases fb with
    | none => simp [read_title] at h
    | some data => exact Or.inr ⟨data, rfl, by simpa [read_title] using h⟩
  | true =>
    cases sb with
    | none =>
      cases fb with
      | none => simp [read_title] at h
      | some data => exact Or.inr ⟨data, rfl, by simpa [read_title] using h⟩
    | some data =>
      cases hsc : truthyTitle extract data with
      | some u =>
        have hut : u = t := by
          have := h
          simp only [read_title, hsc] at this
          exact Option.some.inj this
        exact Or.inl ⟨data, rfl, rfl, by rw [hsc, hut]⟩
      | none =>
        cases fb with
        | none => simp [read_title, hsc] at h
        | some data2 =>
          exact Or.inr ⟨data2, rfl, by simpa [read_title, hsc] using h⟩

/-- C7: for every extraction function, `read_title` returns the sidecar's
title whenever the sidecar exists, its bytes are readable and the
extraction yields nonempty text (regardless of the image file's bytes);
when the sidecar path yields nothing truthy — sidecar absent, its read
raised, or its extraction empty — the result is exactly the truthy title
extracted from the image file's bytes (or the absent marker); and any
returned title is nonempty and comes from one of the two sources.  The
embedding is a total function: no I/O or parse error escapes. -/
theorem read_title_spec (extract : ByteSeq → Option Str) :
    (∀ (data : ByteSeq) (t : Str) (fb : Option ByteSeq),
        extract data = some t → t ≠ [] →
        read_title extract true (some data) fb = some t) ∧
    (∀ (sb fb : Option ByteSeq) (se : Bool),
        (se = false ∨ sb = none ∨
          (∃ data, sb = some data ∧ truthyTitle extract data = none)) →
        read_title extract se sb fb =
          (match fb with
           | none => none
           | some data => truthyTitle extract data)) ∧
    (∀ (se : Bool) (sb fb : Option ByteSeq) (t : Str),
        read_title extract se sb fb = some t →
        t ≠ [] ∧
          ((∃ data, se = true ∧ sb = some data ∧ truthyTitle extract data = some t) ∨
           (∃ data, fb = some data ∧ truthyTitle extract data = some t))) := by
  refine ⟨?_, ?_, ?_⟩
  · intro data t fb hx hne
    simp [read_title, truthyTitle, hx, hne]
  · intro sb fb se h
    rcases h with rfl | rfl | ⟨data, rfl, hfal⟩
    · simp [read_title]
    · cases se <;> simp [read_title]
    · cases se <;> simp [read_title, hfal]
  · intro se sb fb t h
    have hsrc := read_title_some_source extract se sb fb t h
    refine ⟨?_, hsrc⟩
    rcases hsrc with ⟨data, _, _, hu⟩ | ⟨data, _, hu⟩ <;>
      exact truthyTitle_some_ne_nil extract data t hu

/-- Witness for C7: with an extraction that finds `"My Trip"` in the
sidecar bytes `[7]` only, a present sidecar wins over the image bytes,
and without the sidecar the image bytes (which yield nothing) give the
absent marker. -/
theorem read_title_spec_witness :
    read_title (fun b => if b = [7] then some ("My Trip".data) else none)
      true (some [7]) (some [9]) = some ("My Trip".data) ∧
    read_title (fun b => if b = [7] then some ("My Trip".data) else none)
      false (some [7]) (some [9]) = none := by
  constructor
  · exact (read_title_spec (fun b => if b = [7] then some ("My Trip".data) else none)).1
      [7] ("My Trip".data) (some [9]) (by decide) (by decide)
  · rw [(read_title_spec (fun b => if b = [7] then some ("My Trip".data) else none)).2.1
      (some [7]) (some [9]) false (Or.inl rfl)]
    rfl

/-! ### `process_folder` (the batch entry point) -/

/-- Lexicographic file-name comparison (by character code), modelling the
order `sorted(in_dir.iterdir())` uses on paths sharing the directory. -/
def strLe : Str → Str → Bool
  | [], _ => true
  | _ :: _, [] => false
  | a :: as, b :: bs => if a = b then strLe as bs else decide (a < b)

/-- Insertion sort by `strLe`, modelling Python `sorted`. -/
def insertSorted (p : Str) : List Str → List Str
  | [] => [p]
  | q :: rest => if strLe p q then p :: q :: rest else q :: insertSorted p rest

def sortStr : List Str → List Str
  | [] => []
  | p :: rest => insertSorted p (sortStr rest)

/-- The recognized input extensions `exts` of `process_folder`. -/
def recognizedExts : List Str :=
  [".jpg".data, ".jpeg".data, ".tif".data, ".tiff".data, ".png".data]

/-- The canonical output name `save_with_quality_preserved` writes for a
source name (its `out_path.name`). -/
def canonicalOutName (p : Str) : Str := (save_with_quality_preserved p none none).out_name

/-- The environment a batch run observes: the two directory checks, the
raw directory listing, the optional per-file metadata override map (an
association list modelling the Python dict, keyed by file name), what the
metadata readers would return per file, which files raise during
open/compose/persist, and whether a progress callback was supplied
(log lines go to the callback or to `print`, so they are always
recorded). -/
structure BatchEnv where
  inDirExists : Bool
  inDirIsDir : Bool
  entries : List Str
  overrides : Option (List (Str × (Str × Str)))
  readDate : Str → Option Str
  readTitle : Str → Option Str
  raiseAt : Str → Bool
  hasProgressCb : Bool

/-- The observable events of a batch run, in order: output-directory
creation, metadata reads, the composed frame (with the date/title text it
is given), written output files, log lines and progress callbacks. -/
inductive BatchEvent
  | mkdirOut
  | readMeta (file : Str)
  | framed (file : Str) (date title : Str)
  | saved (outFile : Str)
  | logSaved (outFile : Str)
  | logError (file : Str)
  | logDone (total success : Nat)
  | progress (done total : Nat) (file : Option Str)
deriving DecidableEq, Repr

/-- `metadata_overrides.get(p)` guarded by the dict's truthiness
(`if metadata_overrides:`): an empty or absent dict yields no override. -/
def lookupOverride (env : BatchEnv) (p : Str) : Option (Str × Str) :=
  match env.overrides with
  | none => none
  | some m => if m = [] then none else m.lookup p

/-- The `try:` body and `except`/`else` logging of one loop iteration of
`process_folder`: pick the override pair verbatim when present, otherwise
invoke the metadata readers (with `or ""` defaulting); then open, compose
and save — modelled as succeeding iff `raiseAt` is false — logging the
saved path or the error.  Returns the events and the success flag. -/
def processOne (env : BatchEnv) (p : Str) : List BatchEvent × Bool :=
  match lookupOverride env p with
  | some (date_str, title) =>
    if env.raiseAt p then ([.logError p], false)
    else ([.framed p date_str title, .saved (canonicalOutName p),
           .logSaved (canonicalOutName p)], true)
  | none =>
    let date_str := (env.readDate p).getD []
    let title := (env.readTitle p).getD []
    if env.raiseAt p then ([.readMeta p, .logError p], false)
    else ([.readMeta p, .framed p date_str title, .saved (canonicalOutName p),
           .logSaved (canonicalOutName p)], true)

/-- The `for idx, p in enumerate(files, start=1)` loop: per-file events,
a progress callback after every file (success or failure), and the
success count. -/
def runLoop (env : BatchEnv) (total : Nat) : List Str → Nat → List BatchEvent × Nat
  | [], _ => ([], 0)
  | p :: rest, idx =>
    let one := processOne env p
    let prog : List BatchEvent :=
      if env.hasProgressCb then [.progress idx total (some p)] else []
    let r := runLoop env total rest (idx + 1)
    (one.1 ++ prog ++ r.1, (if one.2 then 1 else 0) + r.2)

/-- `files = [p for p in sorted(in_dir.iterdir()) if p.suffix.lower() in exts]`. -/
def listFiles (env : BatchEnv) : List Str :=
  (sortStr env.entries).filter (fun p => pyLower (pySuffix p) ∈ recognizedExts)

/-- `process_folder(in_dir, out_dir, ...)` from `frame_auto_date_title.py`.
The `ValueError` raised when the input directory is missing or not a
directory is the `Except.error` branch — raised before `out_dir.mkdir`,
so the error branch carries no events.  Otherwise: create the output
directory, enumerate, emit the initial progress event, run the loop, and
emit the final summary line; the result is the event trace plus the
`(success, total)` pair. -/
def process_folder (env : BatchEnv) :
    Except Str (List BatchEvent × Nat × Nat) :=
  if ¬ (env.inDirExists = true ∧ env.inDirIsDir = true) then
    Except.error ("Input folder does not exist or is not a directory".data)
  else
    let files := listFiles env
    let total := files.length
    let initProg : List BatchEvent :=
      if env.hasProgressCb then [.progress 0 total none] else []
    let r := runLoop env total files 1
    Except.ok (BatchEvent.mkdirOut :: initProg ++ r.1 ++ [.logDone total r.2], r.2, total)

example :
    process_folder ⟨true, true,
      ["b.png".data, "a.jpg".data, "c.txt".data], none,
      fun _ => none, fun _ => none,
      fun p => decide (p = ("b.png".data)), true⟩ =
    Except.ok ([.mkdirOut, .progress 0 2 none,
      .readMeta ("a.jpg".data), .framed ("a.jpg".data) [] [],
      .saved ("a.jpg".data), .logSaved ("a.jpg".data),
      .progress 1 2 (some ("a.jpg".data)),
      .readMeta ("b.png".data), .logError ("b.png".data),
      .progress 2 2 (some ("b.png".data)),
      .logDone 2 1], 1, 2) := rfl

example :
    process_folder ⟨false, true, ["a.jpg".data], none,
      fun _ => none, fun _ => none, fun _ => false, true⟩ =
    Except.error ("Input folder does not exist or is not a directory".data) := rfl

theorem processOne_snd (env : BatchEnv) (p : Str) :
    (processOne env p).2 = !env.raiseAt p := by
  cases h : lookupOverride env p with
  | none =>
    by_cases hr : env.raiseAt p <;> simp [processOne, h, hr]
  | some dt =>
    obtain ⟨d, t⟩ := dt
    by_cases hr : env.raiseAt p <;> simp [processOne, h, hr]

def isProgress : BatchEvent → Bool
  | .progress _ _ _ => true
  | _ => false

/-- The per-file progress events `(idx, total, p)` for `idx = i, i+1, ...`. -/
def progEvents (total : Nat) : List Str → Nat → List BatchEvent
  | [], _ => []
  | p :: rest, idx => .progress idx total (some p) :: progEvents total rest (idx + 1)

theorem processOne_no_progress (env : BatchEnv) (p : Str) :
    (processOne env p).1.filter isProgress = [] := by
  cases h : lookupOverride env p with
  | none =>
    by_cases hr : env.raiseAt p <;> simp [processOne, h, hr, isProgress]
  | some dt =>
    obtain ⟨d, t⟩ := dt
    by_cases hr : env.raiseAt p <;> simp [processOne, h, hr, isProgress]

theorem runLoop_success (env : BatchEnv) (total : Nat) :
    ∀ (fs : List Str) (idx : Nat),
      (runLoop env total fs idx).2 =
        (fs.filter (fun p => !env.raiseAt p)).length := by
  intro fs
  induction fs with
  | nil => intro idx; simp [runLoop]
  | cons p rest ih =>
    intro idx
    simp only [runLoop]
    rw [List.filter_cons]
    by_cases hr : env.raiseAt p
    · simp [processOne_snd, hr, ih (idx + 1)]
    · simp only [processOne_snd, ih (idx + 1)]
      simp [hr]
      omega

theorem runLoop_logError (env : BatchEnv) (total : Nat) :
    ∀ (fs : List Str) (idx : Nat) (p : Str), p ∈ fs → env.raiseAt p = true →
      BatchEvent.logError p ∈ (runLoop env total fs idx).1 := by
  intro fs
  induction fs with
  | nil => intro idx p hp; cases hp
  | cons q rest ih =>
    intro idx p hp hr
    simp only [runLoop, List.mem_append]
    rcases List.mem_cons.1 hp with rfl | hp
    · refine Or.inl (Or.inl ?_)
      cases h : lookupOverride env p with
      | none => simp [processOne, h, hr]
      | some dt =>
        obtain ⟨d, t⟩ := dt
        simp [processOne, h, hr]
    · exact Or.inr (ih (idx + 1) p hp hr)

theorem runLoop_saved (env : BatchEnv) (total : Nat) :
    ∀ (fs : List Str) (idx : Nat) (p : Str), p ∈ fs → env.raiseAt p = false →
      BatchEvent.saved (canonicalOutName p) ∈ (runLoop env total fs idx).1 ∧
      BatchEvent.logSaved (canonicalOutName p) ∈ (runLoop env total fs idx).1 := by
  intro fs
  induction fs with
  | nil => intro idx p hp; cases hp
  | cons q rest ih =>
    intro idx p hp hr
    simp only [runLoop, List.mem_append]
    rcases List.mem_cons.1 hp with rfl | hp
    · constructor
      · refine Or.inl (Or.inl ?_)
        cases h : lookupOverride env p with
        | none => simp [processOne, h, hr]
        | some dt =>
          obtain ⟨d, t⟩ := dt
          simp [processOne, h, hr]
      · refine Or.inl (Or.inl ?_)
        cases h : lookupOverride env p with
        | none => simp [processOne, h, hr]
        | some dt =>
          obtain ⟨d, t⟩ := dt
          simp [processOne, h, hr]
    · exact ⟨Or.inr (ih (idx + 1) p hp hr).1, Or.inr (ih (idx + 1) p hp hr).2⟩

theorem runLoop_progress (env : BatchEnv) (total : Nat)
    (hcb : env.hasProgressCb = true) :
    ∀ (fs : List Str) (idx : Nat),
      (runLoop env total fs idx).1.filter isProgress = progEvents total fs idx := by
  intro fs
  induction fs with
  | nil => intro idx; simp [runLoop, progEvents]
  | cons p rest ih =>
    intro idx
    simp only [runLoop, hcb, if_true, List.filter_append]
    rw [processOne_no_progress, ih (idx + 1)]
    simp [progEvents, isProgress]

theorem runLoop_no_readMeta (env : BatchEnv) (total : Nat) :
    ∀ (fs : List Str) (idx : Nat) (p : Str), lookupOverride env p ≠ none →
      BatchEvent.readMeta p ∉ (runLoop env total fs idx).1 := by
  intro fs
  induction fs with
  | nil => intro idx p _ h; simp [runLoop] at h
  | cons q rest ih =>
    intro idx p hov h
    simp only [runLoop, List.mem_append] at h
    rcases h with (h | h) | h
    · cases hq : lookupOverride env q with
      | none =>
        by_cases hr : env.raiseAt q
        · simp [processOne, hq, hr] at h
          exact hov (h ▸ hq)
        · simp [processOne, hq, hr] at h
          exact hov (h ▸ hq)
      | some dt =>
        obtain ⟨d, t⟩ := dt
        by_cases hr : env.raiseAt q <;> simp [processOne, hq, hr] at h
    · by_cases hc : env.hasProgressCb <;> simp [hc] at h
    · exact ih (idx + 1) p hov h

theorem runLoop_framed_override (env : BatchEnv) (total : Nat) :
    ∀ (fs : List Str) (idx : Nat) (p d t : Str),
      lookupOverride env p = some (d, t) → p ∈ fs → env.raiseAt p = false →
      BatchEvent.framed p d t ∈ (runLoop env total fs idx).1 := by
  intro fs
  induction fs with
  | nil => intro idx p d t _ hp; cases hp
  | cons q rest ih =>
    intro idx p d t hov hp hr
    simp only [runLoop, List.mem_append]
    rcases List.mem_cons.1 hp with rfl | hp
    · exact Or.inl (Or.inl (by simp [processOne, hov, hr]))
    · exact Or.inr (ih (idx + 1) p d t hov hp hr)

/-- C8: `process_folder` raises (the `Except.error` branch) if and only if
the input directory does not exist or is not a directory; the raise
precedes the `out_dir.mkdir` call and the file loop, so the error branch
carries no events at all (in particular no output directory is created);
on a valid input directory the run always returns the `(success, total)`
result — no other error propagates out of the batch entry point. -/
theorem process_folder_invalid_input_only (env : BatchEnv) :
    ((∃ msg, process_folder env = Except.error msg) ↔
      ¬ (env.inDirExists = true ∧ env.inDirIsDir = true)) ∧
    (¬ (env.inDirExists = true ∧ env.inDirIsDir = true) →
      process_folder env =
        Except.error ("Input folder does not exist or is not a directory".data)) := by
  have herr : ¬ (env.inDirExists = true ∧ env.inDirIsDir = true) →
      process_folder env =
        Except.error ("Input folder does not exist or is not a directory".data) := by
    intro h
    simp only [process_folder]
    rw [if_pos h]
  refine ⟨⟨?_, fun h => ⟨_, herr h⟩⟩, herr⟩
  intro ⟨msg, hmsg⟩
  by_cases hvalid : env.inDirExists = true ∧ env.inDirIsDir = true
  · exfalso
    simp only [process_folder] at hmsg
    rw [if_neg (not_not_intro hvalid)] at hmsg
    cases hmsg
  · exact hvalid

/-- Witness for C8: a missing input directory raises the invalid-input
error, and a valid one returns a result. -/
theorem process_folder_invalid_input_only_witness :
    process_folder ⟨false, true, [], none, fun _ => none, fun _ => none,
        fun _ => false, false⟩ =
      Except.error ("Input folder does not exist or is not a directory".data) ∧
    ¬ ∃ msg, process_folder ⟨true, true, [], none, fun _ => none, fun _ => none,
        fun _ => false, false⟩ = Except.error msg :=
  ⟨(process_folder_invalid_input_only _).2 (by simp),
   fun hex => ((process_folder_invalid_input_only _).1.1 hex) (by simp)⟩

/-- C9: on a valid input directory over the `N` enumerated files,
`process_folder` returns `(S, N)` where `S` counts exactly the files
whose processing does not raise; every raising file gets an error log
event and every non-raising file gets its output written and logged; and
with a progress callback supplied, the progress events are exactly the
initial `(0, N)` one followed by one `(idx, N, file)` per file in order —
a raising file never aborts the batch. -/
theorem process_folder_isolates_failures (env : BatchEnv)
    (hex : env.inDirExists = true) (hdir : env.inDirIsDir = true) :
    ∃ tr,
      process_folder env =
        Except.ok (tr,
          ((listFiles env).filter (fun p => !env.raiseAt p)).length,
          (listFiles env).length) ∧
      (∀ p ∈ listFiles env, env.raiseAt p = true → BatchEvent.logError p ∈ tr) ∧
      (∀ p ∈ listFiles env, env.raiseAt p = false →
        BatchEvent.saved (canonicalOutName p) ∈ tr ∧
        BatchEvent.logSaved (canonicalOutName p) ∈ tr) ∧
      (env.hasProgressCb = true →
        tr.filter isProgress =
          BatchEvent.progress 0 (listFiles env).length none ::
            progEvents (listFiles env).length (listFiles env) 1) := by
  refine ⟨BatchEvent.mkdirOut ::
      (if env.hasProgressCb then
        [BatchEvent.progress 0 (listFiles env).length none] else []) ++
      (runLoop env (listFiles env).length (listFiles env) 1).1 ++
      [BatchEvent.logDone (listFiles env).length
        (runLoop env (listFiles env).length (listFiles env) 1).2],
    ?_, ?_, ?_, ?_⟩
  · simp only [process_folder]
    rw [if_neg (not_not_intro ⟨hex, hdir⟩)]
    rw [runLoop_success env (listFiles env).length (listFiles env) 1]
  · intro p hp hr
    have := runLoop_logError env (listFiles env).length (listFiles env) 1 p hp hr
    simp [List.mem_append, this]
  · intro p hp hr
    have h1 := runLoop_saved env (listFiles env).length (listFiles env) 1 p hp hr
    constructor
    · simp [List.mem_append, h1.1]
    · simp [List.mem_append, h1.2]
  · intro hcb
    simp only [hcb, if_true, List.filter_cons, List.filter_append]
    rw [runLoop_progress env (listFiles env).length hcb (listFiles env) 1]
    simp [isProgress]

/-- Witness for C9 at a concrete batch: files `a.jpg` (fine) and `b.png`
(raising), a `c.txt` entry filtered out; the run returns `(1, 2)` with
the error logged, the output written and the full progress sequence. -/
theorem process_folder_isolates_failures_witness :
    ∃ tr,
      process_folder ⟨true, true,
          ["b.png".data, "a.jpg".data, "c.txt".data], none,
          fun _ => none, fun _ => none,
          fun p => decide (p = ("b.png".data)), true⟩ =
        Except.ok (tr, 1, 2) ∧
      BatchEvent.logError ("b.png".data) ∈ tr ∧
      BatchEvent.saved ("a.jpg".data) ∈ tr := by
  obtain ⟨tr, h1, h2, h3, h4⟩ := process_folder_isolates_failures
    ⟨true, true, ["b.png".data, "a.jpg".data, "c.txt".data], none,
      fun _ => none, fun _ => none,
      fun p => decide (p = ("b.png".data)), true⟩ rfl rfl
  refine ⟨tr, ?_, ?_, ?_⟩
  · rw [h1]
    rfl
  · exact h2 ("b.png".data) (by decide) (by decide)
  · exact (h3 ("a.jpg".data) (by decide) (by decide)).1

/-- C10: a file with an entry in the override map — whatever the pair,
including two empty strings — is never passed to the metadata readers
(no `readMeta` event for it anywhere in the run), and when its processing
succeeds the frame is composed with exactly the override's date and title
strings. -/
theorem process_folder_override_verbatim (env : BatchEnv) (p d t : Str)
    (hex : env.inDirExists = true) (hdir : env.inDirIsDir = true)
    (hov : lookupOverride env p = some (d, t)) :
    ∃ tr s n, process_folder env = Except.ok (tr, s, n) ∧
      BatchEvent.readMeta p ∉ tr ∧
      (p ∈ listFiles env → env.raiseAt p = false → BatchEvent.framed p d t ∈ tr) := by
  refine ⟨BatchEvent.mkdirOut ::
      (if env.hasProgressCb then
        [BatchEvent.progress 0 (listFiles env).length none] else []) ++
      (runLoop env (listFiles env).length (listFiles env) 1).1 ++
      [BatchEvent.logDone (listFiles env).length
        (runLoop env (listFiles env).length (listFiles env) 1).2],
    (runLoop env (listFiles env).length (listFiles env) 1).2,
    (listFiles env).length, ?_, ?_, ?_⟩
  · simp only [process_folder]
    rw [if_neg (not_not_intro ⟨hex, hdir⟩)]
  · intro hmem
    have hno := runLoop_no_readMeta env (listFiles env).length (listFiles env) 1 p
      (by rw [hov]; exact fun hc => Option.noConfusion hc)
    rcases List.mem_cons.1 hmem with hmk | hmem
    · cases hmk
    · rcases List.mem_append.1 hmem with hmem | hlast
      · rcases List.mem_append.1 hmem with hinit | hrun
        · by_cases hc : env.hasProgressCb <;> simp [hc] at hinit
        · exact hno hrun
      · simp at hlast
  · intro hp hr
    have := runLoop_framed_override env (listFiles env).length (listFiles env) 1
      p d t hov hp hr
    simp [List.mem_append, this]

/-- Witness for C10: a single file `a.jpg` with the override pair of two
empty strings is framed with the empty date and title and its metadata is
never read. -/
theorem process_folder_override_verbatim_witness :
    ∃ tr s n,
      process_folder ⟨true, true, ["a.jpg".data],
          some [(("a.jpg".data), ([], []))],
          fun _ => some ("2020-01-01".data), fun _ => some ("T".data),
          fun _ => false, true⟩ =
        Except.ok (tr, s, n) ∧
      BatchEvent.readMeta ("a.jpg".data) ∉ tr ∧
      (("a.jpg".data) ∈ listFiles ⟨true, true, ["a.jpg".data],
          some [(("a.jpg".data), ([], []))],
          fun _ => some ("2020-01-01".data), fun _ => some ("T".data),
          fun _ => false, true⟩ → False → True) ∧
      BatchEvent.framed ("a.jpg".data) [] [] ∈ tr := by
  obtain ⟨tr, s, n, h1, h2, h3⟩ := process_folder_override_verbatim
    ⟨true, true, ["a.jpg".data], some [(("a.jpg".data), ([], []))],
      fun _ => some ("2020-01-01".data), fun _ => some ("T".data),
      fun _ => false, true⟩ ("a.jpg".data) [] [] rfl rfl (by decide)
  exact ⟨tr, s, n, h1, h2, fun _ hF => hF.elim,
    h3 (by decide) rfl⟩
